import Mathlib

/-!
Verification of the loog logging core (src/index.js) against its
natural-language specification.

The embedding below translates the data model and operations of the
source file: the level vocabulary and prefix/color tables, the
configuration resolution performed by the `Log` constructor, the mutable
per-instance state, the render pipeline of `getLogFn`, and every public
method as a step function from state and operation to a new state, a
list of sink writes, and a return marker.

JavaScript-value conventions used throughout:
- the indentation depth is `Option Int`; `none` stands for the JS values
  `undefined` and `NaN`, which behave identically at every use site
  (`x > 0` is false, `x++` yields `NaN`);
- the saved-indentation slot is `Option Int`; `none` stands for an
  absent slot as well as a slot holding `undefined`/`NaN`;
- the mute flag is `Bool`; the source only ever reads it through `!`,
  under which the initial `undefined` and `false` coincide;
- counters are a total function `String → Nat`; the source reads them
  through `(x || 0)`, under which a deleted entry and `0` coincide, and
  no operation enumerates counter keys;
- trackers are an association list, because `report` enumerates and
  sorts their keys.
-/

namespace Loog

/-- The concrete log-method levels: the keys of the prefix tables in the
source, which are exactly the methods installed on `Log.prototype`. -/
inductive Level
| error
| warn
| warning
| http
| info
| success
| notice
| timing
| verbose
| debug
| silly
| log
deriving DecidableEq, Repr

/-- The ordered level vocabulary accepted by `setLogLevel` (source array
`logLevels`). -/
def logLevels : List String :=
  ["all", "silly", "debug", "verbose", "timing", "http", "notice",
   "info", "success", "warn", "quiet", "error", "silent"]

/-- Source table `textPrefixes`. -/
def textPrefixes : Level → String
| .error => "[ERR]"
| .warn => "[WRN]"
| .warning => "[WRN]"
| .http => "[NET]"
| .info => "[INF]"
| .success => "[OK ]"
| .notice => "[NOT]"
| .timing => "[TIM]"
| .verbose => "[VRB]"
| .debug => "[DBG]"
| .silly => "[LOL]"
| .log => ""

/-- Source table `asciiPrefixes`; the source picks glyphs by the host
platform (`isWin`), which we pass as a parameter. -/
def asciiPrefixes (isWin : Bool) : Level → String
| .error => if isWin then "►" else "✖"
| .warn => if isWin then "‼" else "⚠"
| .warning => if isWin then "‼" else "⚠"
| .http => if isWin then "≡" else "☷"
| .info => if isWin then "i" else "ℹ"
| .success => if isWin then "√" else "✔"
| .notice => if isWin then "i" else "ℵ"
| .timing => if isWin then "+" else "◷"
| .verbose => if isWin then "i" else "ℹ"
| .debug => if isWin then "i" else "ℹ"
| .silly => "☺"
| .log => ""

/-- Source table `emojiPrefixes` (glyphs copied verbatim, including the
trailing spaces present in the source strings). -/
def emojiPrefixes : Level → String
| .error => "❌ "
| .warn => "〽️"
| .warning => "〽️"
| .http => "🌐 "
| .info => "➡️ "
| .success => "✅ "
| .notice => "❕ "
| .timing => "🕒 "
| .verbose => "🎤 "
| .debug => "🔬 "
| .silly => "🙃 "
| .log => ">"

/-- Source table `npmPrefixes`. -/
def npmPrefixes : Level → String
| .error => "ERR"
| .warn => "WRN"
| .warning => "WRN"
| .http => "NET"
| .info => "INF"
| .success => "OK "
| .notice => "NOT"
| .timing => "TIM"
| .verbose => "VRB"
| .debug => "DBG"
| .silly => "LOL"
| .log => ">"

/-- Modelled from the spec: the color-rendering collaborator (the chalk
dependency, outside src/) is an opaque capability
`colorize(colorName, text) -> text`; we model a foreground style as the
ANSI open/close sequence pair a color-capable terminal renderer emits. -/
def fgWrap (openCode : String) (t : String) : String :=
  "\x1b[" ++ openCode ++ "m" ++ t ++ "\x1b[39m"

/-- Modelled from the spec: the bold modifier of the external color
capability, as an ANSI open/close pair. -/
def boldWrap (t : String) : String :=
  "\x1b[1m" ++ t ++ "\x1b[22m"

/-- Source table `colorStyles`: per-level color transforms built from
the external capability (chalk styles `red.bold`, `yellow.bold`,
`cyan.bold`, `green.bold`, `blue.bold`, `blue`, `gray.bold`,
`white.bold`); the `log` entry is the identity, verbatim from the
source (`t => t`). -/
def colorStyles : Level → String → String
| .error => fun t => fgWrap "31" (boldWrap t)
| .warn => fun t => fgWrap "33" (boldWrap t)
| .warning => fun t => fgWrap "33" (boldWrap t)
| .http => fun t => fgWrap "36" (boldWrap t)
| .info => fun t => fgWrap "32" (boldWrap t)
| .success => fun t => fgWrap "32" (boldWrap t)
| .notice => fun t => fgWrap "34" (boldWrap t)
| .timing => fun t => fgWrap "34" t
| .verbose => fun t => fgWrap "34" (boldWrap t)
| .debug => fun t => fgWrap "90" (boldWrap t)
| .silly => fun t => fgWrap "37" (boldWrap t)
| .log => fun t => t

/-- The configuration object handed to the `Log` constructor after the
facade merges user options over `defaultCfg`.  The `color` field is
carried because the spec and the repository tests mention it; the
constructor in the source never reads it. -/
structure InputCfg where
  prefixStyle : String
  prefixesOpt : Option (List (Level × String))
  colorsOpt : Option (List (Level × (String → String)))
  logLevel : Option String
  process : String
  color : Option Bool

/-- The resolved configuration stored on the instance (`this.cfg`).
Prefix lookup returns `""` for levels the resolved table does not
mention, matching the falsy read `me.cfg.prefixes[level]`. -/
structure Config where
  prefixes : Level → String
  noPrefixFlag : Bool
  colors : Level → String → String
  noColors : Bool
  process : String
  color : Option Bool

/-- Constructor branch resolving `this.cfg.prefixes` and `_noPrefix`:
a supplied `prefixes` map wins (empty map sets the no-prefix flag);
otherwise the `prefixStyle` switch picks a table, with unknown styles
falling to the empty table plus the no-prefix flag. -/
def resolvedPrefixTable (isWin : Bool) (c : InputCfg) : (Level → String) × Bool :=
  match c.prefixesOpt with
  | some l => (fun lv => ((l.lookup lv).getD ""), l.isEmpty)
  | none =>
    match c.prefixStyle with
    | "text" => (textPrefixes, false)
    | "emoji" => (emojiPrefixes, false)
    | "ascii" => (asciiPrefixes isWin, false)
    | "npm" => (npmPrefixes, false)
    | _ => (fun _ => "", true)

/-- Constructor branch resolving `this.cfg.colors` and `_noColors`: a
supplied `colors` map wins (empty map sets the no-colors flag),
otherwise the default `colorStyles` table is installed.  A supplied
non-empty map missing a level would throw in the source when that level
renders; we return the identity there, a case no reachable claim
exercises. -/
def resolvedColorTable (c : InputCfg) : (Level → String → String) × Bool :=
  match c.colorsOpt with
  | some l => (fun lv => ((l.lookup lv).getD (fun t => t)), l.isEmpty)
  | none => (colorStyles, false)

/-- The mutable instance state together with its resolved config: the
fields `_indentation`, `_indentWas`, `_mute`, `_counters`, `_trackers`
of class `Log`, plus the per-method `enable` booleans that
`setLogLevel` attaches to the lazily created level functions. -/
structure Log where
  cfg : Config
  indentation : Option Int
  indentWas : Option Int
  mute : Bool
  counters : String → Nat
  trackers : List (String × Nat)
  flags : Level → Bool

/-- Normalization at the top of `setLogLevel`: a falsy or unrecognized
requested level becomes `info`. -/
def normalizeLevel : Option String → String
| none => "info"
| some l => if l ≠ "" ∧ logLevels.contains l then l else "info"

/-- The card of each non-silent `case` label in the `setLogLevel`
switch, in source order; `success` has no case and falls through the
whole switch without matching. -/
def caseRankOpt : String → Option Nat
| "all" => some 0
| "silly" => some 0
| "debug" => some 1
| "verbose" => some 1
| "timing" => some 2
| "http" => some 3
| "notice" => some 4
| "info" => some 5
| "warn" => some 6
| "quiet" => some 7
| "error" => some 7
| _ => none

/-- The case at which each method receives its `enable = true`
assignment inside the fall-through switch. -/
def assignRank : Level → Nat
| .silly => 0
| .debug => 1
| .verbose => 1
| .timing => 2
| .http => 3
| .notice => 4
| .info => 5
| .success => 5
| .warn => 6
| .warning => 6
| .error => 7
| .log => 7

/-- Which methods the fall-through switch turns on for a normalized
non-silent level: every assignment from the matched case down to the
`break`. -/
def switchEnables (nl : String) (m : Level) : Bool :=
  match caseRankOpt nl with
  | some c => decide (c ≤ assignRank m)
  | none => false

/-- `Log.setLogLevel`: normalize, then either mute (case `silent`) or
turn on the methods of the matched cascade; the switch never sets any
flag to `false`. -/
def setLogLevelStep (s : Log) (newLevel : Option String) : Log :=
  let nl := normalizeLevel newLevel
  if nl = "silent" then { s with mute := true }
  else { s with flags := fun m => s.flags m || switchEnables nl m }

/-- The `Log` constructor: resolve prefixes and colors, zero the
mutable state, then run `setLogLevel(config.logLevel)`. -/
def mkLog (isWin : Bool) (c : InputCfg) : Log :=
  let pt := resolvedPrefixTable isWin c
  let ct := resolvedColorTable c
  setLogLevelStep
    { cfg :=
        { prefixes := pt.1
          noPrefixFlag := pt.2
          colors := ct.1
          noColors := ct.2
          process := c.process
          color := c.color }
      indentation := some 0
      indentWas := none
      mute := false
      counters := fun _ => 0
      trackers := []
      flags := fun _ => false }
    c.logLevel

/-- One write to the output sink: either a full line via `console.log`
or a raw control sequence via `process.stdout.write`. -/
inductive Out
| line (s : String)
| ctrl (s : String)
deriving DecidableEq, Repr

/-- The value a public method returns: the instance (`return this`) or
`undefined` (no return statement). -/
inductive Ret
| inst
| undef
deriving DecidableEq, Repr

/-- Line assembly inside `getLogFn`: unshift the (possibly colorized)
prefix when the prefix entry is truthy, unshift the indentation run of
spaces when the depth compares greater than zero, unshift the process
label when truthy, join with single spaces, and colorize the whole
joined line in the no-prefix-with-colors configuration. -/
def renderLine (s : Log) (lv : Level) (args : List String) : String :=
  let a1 :=
    if s.cfg.prefixes lv ≠ "" then
      (if s.cfg.noColors then s.cfg.prefixes lv
       else s.cfg.colors lv (s.cfg.prefixes lv)) :: args
    else args
  let a2 :=
    match s.indentation with
    | some n => if 0 < n then String.mk (List.replicate n.toNat ' ') :: a1 else a1
    | none => a1
  let a3 := if s.cfg.process ≠ "" then s.cfg.process :: a2 else a2
  let joined := String.intercalate " " a3
  if s.cfg.noPrefixFlag then
    (if s.cfg.noColors then joined else s.cfg.colors lv joined)
  else joined

/-- The guard and emission of a level method (`getLogFn`): one line when
the method flag is on and the instance is unmuted, nothing otherwise;
the state is never changed. -/
def emitVia (s : Log) (lv : Level) (args : List String) : List Out :=
  if s.flags lv && !s.mute then [Out.line (renderLine s lv args)] else []

/-- JS-object update for the tracker association list: an existing key
is bumped in place, a fresh key is appended (insertion order, as
`Object.keys` preserves it). -/
def bump (l : List (String × Nat)) (k : String) : List (String × Nat) :=
  if (l.lookup k).isSome then
    l.map (fun p => if p.1 = k then (p.1, p.2 + 1) else p)
  else l ++ [(k, 1)]

/-- Insertion step for sorting tracker keys (JS `Array.sort` default
string comparison). -/
def insertSorted (x : String) : List String → List String
| [] => [x]
| y :: ys => if x < y then x :: y :: ys else y :: insertSorted x ys

/-- Sort of tracker keys used by `report`. -/
def sortStrings : List String → List String
| [] => []
| x :: xs => insertSorted x (sortStrings xs)

/-- One public operation of the logger.  Level methods carry their
string arguments.  `count` and `report` carry the method name used for
emission as a `Level` (`none` on `count` is the explicit `null` that
suppresses emission); `json` carries the lines that the external
`JSON.stringify` serialization produced, modelled from the spec as the
one-line-per-split-line input of the helper. -/
inductive Op
| level (lv : Level) (args : List String)
| clear
| clearLine
| count (label : String) (ty : Option Level)
| clearCount (label : String)
| indent
| outdent
| pauseIndentation
| resumeIndentation
| resetIndentation
| mute
| unmute
| track (label : String)
| untrack (label : String)
| report (label : String) (ty : Level)
| json (lines : List String) (ty : Level)
| setLogLevel (l : Option String)
deriving DecidableEq, Repr

/-- Result of one public call: the new state, the sink writes, and the
returned value. -/
structure StepRes where
  st : Log
  out : List Out
  ret : Ret

/-- The public methods of class `Log`, one case per method, translated
clause by clause from the source.  Empty-string labels model the falsy
JS arguments (`undefined`, `''`), which the source treats alike. -/
def step (s : Log) (op : Op) : StepRes :=
  match op with
  | .level lv args => ⟨s, emitVia s lv args, .inst⟩
  | .clear => ⟨s, if s.mute then [] else [Out.ctrl "\x1Bc"], .inst⟩
  | .clearLine => ⟨s, if s.mute then [] else [Out.ctrl "\x1b[A\x1b[K"], .inst⟩
  | .count label ty =>
      let key := if label ≠ "" then label else "_"
      let m := if label ≠ "" then label ++ ": " else ""
      let n := s.counters key + 1
      let s2 := { s with counters := fun k => if k = key then n else s.counters k }
      ⟨s2,
       (match ty with
        | some t => emitVia s2 t [m ++ toString n]
        | none => []),
       .inst⟩
  | .clearCount label =>
      let key := if label ≠ "" then label else "_"
      ⟨{ s with counters := fun k => if k = key then 0 else s.counters k }, [], .undef⟩
  | .indent => ⟨{ s with indentation := s.indentation.map (· + 1) }, [], .inst⟩
  | .outdent =>
      ⟨{ s with indentation :=
          match s.indentation with
          | some n => if 0 < n then some (n - 1) else some n
          | none => none }, [], .inst⟩
  | .pauseIndentation =>
      ⟨{ s with indentWas := s.indentation, indentation := some 0 }, [], .inst⟩
  | .resumeIndentation =>
      ⟨{ s with indentation := s.indentWas, indentWas := none }, [], .inst⟩
  | .resetIndentation =>
      ⟨{ s with indentation := some 0, indentWas := none }, [], .inst⟩
  | .mute => ⟨{ s with mute := true }, [], .inst⟩
  | .unmute => ⟨{ s with mute := false }, [], .inst⟩
  | .track label =>
      ⟨if label ≠ "" then { s with trackers := bump s.trackers label } else s, [], .inst⟩
  | .untrack label =>
      ⟨if label ≠ "" ∧ (s.trackers.lookup label).isSome then
          { s with trackers := s.trackers.filter (fun p => p.1 ≠ label) }
        else s, [], .inst⟩
  | .report label ty =>
      if label ≠ "" ∧ (s.trackers.lookup label).isSome then
        ⟨s, emitVia s ty [label ++ ": " ++ toString ((s.trackers.lookup label).getD 0)], .inst⟩
      else
        let msg := (sortStrings (s.trackers.map Prod.fst)).map
          (fun k => k ++ ": " ++ toString ((s.trackers.lookup k).getD 0))
        ⟨s, if msg ≠ [] then emitVia s ty [String.intercalate ", " msg] else [], .inst⟩
  | .json lines ty => ⟨s, (lines.map (fun l => emitVia s ty [l])).flatten, .undef⟩
  | .setLogLevel l => ⟨setLogLevelStep s l, [], .inst⟩

/-- The default configuration of the facade (`defaultCfg` in the
source); the environment-variable default level is modelled from the
spec by its documented fallback `info`. -/
def defaultCfg : InputCfg :=
  { prefixStyle := "text"
    prefixesOpt := none
    colorsOpt := none
    logLevel := some "info"
    process := ""
    color := none }

/-- The default-constructed instance (non-Windows platform). -/
def defaultLog : Log := mkLog false defaultCfg

/-- A default instance that has been muted by a `mute()` call. -/
def mutedDefault : Log := (step defaultLog Op.mute).st

/-- The default instance after a subsequent `setLogLevel` request for
the `warn` level. -/
def warnDefault : Log := (step defaultLog (Op.setLogLevel (some "warn"))).st

/-- The instance constructed with the boolean option `color` set to
`false` and otherwise default options. -/
def colorFalseLog : Log := mkLog false { defaultCfg with color := some false }

/-- The instance constructed with `prefixStyle` set to `none` and
otherwise default options. -/
def noPrefixStyleLog : Log := mkLog false { defaultCfg with prefixStyle := "none" }

/-- The method rows of the cascade table in spec section 4.1, written
from the words of the spec (not from the source) for comparison with
the flags the code computes; the row for an unlisted level is the
`info` row, per the spec rule that invalid or absent levels default to
`info`. -/
def specCascadeRow : String → List Level
| "all" =>
  [.silly, .debug, .verbose, .timing, .http, .notice, .info, .success, .warn, .warning, .error, .log]
| "silly" =>
  [.silly, .debug, .verbose, .timing, .http, .notice, .info, .success, .warn, .warning, .error, .log]
| "debug" =>
  [.debug, .verbose, .timing, .http, .notice, .info, .success, .warn, .warning, .error, .log]
| "verbose" =>
  [.debug, .verbose, .timing, .http, .notice, .info, .success, .warn, .warning, .error, .log]
| "timing" => [.timing, .http, .notice, .info, .success, .warn, .warning, .error, .log]
| "http" => [.http, .notice, .info, .success, .warn, .warning, .error, .log]
| "notice" => [.notice, .info, .success, .warn, .warning, .error, .log]
| "warn" => [.warn, .warning, .error, .log]
| "quiet" => [.error, .log]
| "error" => [.error, .log]
| "silent" => []
| _ => [.info, .success, .warn, .warning, .error, .log]

/-- Membership in the spec cascade row, as a boolean. -/
def specCascadeEnables (l : String) (m : Level) : Bool :=
  (specCascadeRow l).contains m

/-- The line assembly exactly as claim C2 words it: parts from the
arguments, the (colorized unless colors are disabled) prefix prepended
when a non-empty prefix exists and prefixes are not suppressed, the
indentation run prepended when the depth is positive, the process label
prepended when configured, all joined with single spaces — with no
further transformation of the joined line. -/
def claimedAssemblyC2 (s : Log) (lv : Level) (args : List String) : String :=
  let withPfx :=
    if s.cfg.prefixes lv ≠ "" ∧ s.cfg.noPrefixFlag = false then
      (if s.cfg.noColors then s.cfg.prefixes lv
       else s.cfg.colors lv (s.cfg.prefixes lv)) :: args
    else args
  let withInd :=
    match s.indentation with
    | some n => if 0 < n then String.mk (List.replicate n.toNat ' ') :: withPfx else withPfx
    | none => withPfx
  let withProc := if s.cfg.process ≠ "" then s.cfg.process :: withInd else withInd
  String.intercalate " " withProc

/-- The full render pipeline as spec section 4.3 words it: the joined
parts of steps 2 to 6, then step 7, which colorizes the whole joined
line when prefixes are globally suppressed and color is enabled. -/
def specAssembledLine (s : Log) (lv : Level) (args : List String) : String :=
  let joined := claimedAssemblyC2 s lv args
  if s.cfg.noPrefixFlag = true ∧ s.cfg.noColors = false then s.cfg.colors lv joined
  else joined

/-- `setLogLevel` never touches the resolved configuration. -/
theorem setLogLevelStep_cfg (s : Log) (l : Option String) :
    (setLogLevelStep s l).cfg = s.cfg := by
  simp only [setLogLevelStep]
  split <;> rfl

/-- `setLogLevel` never touches the indentation depth. -/
theorem setLogLevelStep_indentation (s : Log) (l : Option String) :
    (setLogLevelStep s l).indentation = s.indentation := by
  simp only [setLogLevelStep]
  split <;> rfl

/-- `setLogLevel` never touches the saved indentation slot. -/
theorem setLogLevelStep_indentWas (s : Log) (l : Option String) :
    (setLogLevelStep s l).indentWas = s.indentWas := by
  simp only [setLogLevelStep]
  split <;> rfl

/-- Claim C1: refuted as stated — the fall-through switch in
`setLogLevel` only ever turns flags on, so on a default-constructed
(`info`) logger a later `setLogLevel` request for `warn` leaves the
`info` method enabled, although the spec cascade row for `warn`
excludes it; the scenario `error`, `warn`, `info` then writes three
lines, with the `info` call emitting one line instead of none. -/
theorem C1_cascade_not_exact :
    warnDefault.flags Level.info = true
    ∧ specCascadeEnables "warn" Level.info = false
    ∧ (step warnDefault (Op.level Level.error ["a"])).out.length = 1
    ∧ (step warnDefault (Op.level Level.warn ["b"])).out.length = 1
    ∧ (step warnDefault (Op.level Level.info ["c"])).out.length = 1 :=
  ⟨rfl, rfl, rfl, rfl, rfl⟩

/-- Claim C4: refuted as stated — `clearCount` and `json` have no
return statement and hand back `undefined`, while the other mutators do
return the instance (three of them evaluated here for contrast). -/
theorem C4_return_values :
    (step defaultLog (Op.clearCount "x")).ret = Ret.undef
    ∧ (step defaultLog (Op.json ["line1"] Level.log)).ret = Ret.undef
    ∧ (step defaultLog Op.indent).ret = Ret.inst
    ∧ (step defaultLog Op.clear).ret = Ret.inst
    ∧ (step defaultLog (Op.count "x" (some Level.log))).ret = Ret.inst :=
  ⟨rfl, rfl, rfl, rfl, rfl⟩

/-- Claim C9: refuted as stated — the constructor never reads the
boolean `color` option, so constructing with `color := false` still
installs the full default color table, leaves the no-colors flag unset,
and colorizes the info prefix of an emitted line. -/
theorem C9_color_false_ignored :
    colorFalseLog.cfg.color = some false
    ∧ colorFalseLog.cfg.noColors = false
    ∧ (step colorFalseLog (Op.level Level.info ["Hi"])).out
        = [Out.line (colorStyles Level.info (textPrefixes Level.info) ++ " " ++ "Hi")]
    ∧ colorStyles Level.info (textPrefixes Level.info) ≠ textPrefixes Level.info := by
  refine ⟨rfl, rfl, by decide, by decide⟩

/-- Claim C6 counterexample: on the freshly constructed default logger
(whose depth is the integer zero), a single `resumeIndentation` call
copies the absent saved slot into the depth, leaving the depth the
undefined value rather than a non-negative integer. -/
theorem C6_resume_undefined_counterexample :
    defaultLog.indentation = some 0
    ∧ (step defaultLog Op.resumeIndentation).st.indentation = none :=
  ⟨rfl, rfl⟩

/-- Claim C5 counterexample: the anonymous bucket of `count()` is the
bucket keyed by the underscore label, so after one anonymous count the
named call `count('_')` reports `_: 2` instead of starting its own
counter at `_: 1`. -/
theorem C5_anonymous_bucket_counterexample :
    (step defaultLog (Op.count "" (some Level.log))).st.counters "_" = 1
    ∧ (step (step defaultLog (Op.count "" (some Level.log))).st
        (Op.count "_" (some Level.log))).out = [Out.line "_: 2"]
    ∧ [Out.line "_: 2"] ≠ [Out.line "_: 1"] := by
  refine ⟨rfl, by decide, by decide⟩

/-- Claim C8 counterexample: on an already muted logger, `mute()`
followed by `unmute()` does not restore the prior behavior — before the
pair the `info` method emitted nothing, afterwards it emits a line. -/
theorem C8_mute_unmute_counterexample :
    (step mutedDefault (Op.level Level.info ["x"])).out = []
    ∧ (step (step (step mutedDefault Op.mute).st Op.unmute).st
        (Op.level Level.info ["x"])).out ≠ [] := by
  refine ⟨rfl, by decide⟩

/-- Claim C7: `pauseIndentation` stores the current depth in the single
slot and zeroes the depth; `resumeIndentation` restores exactly the
depth present at pause time and clears the slot; a second pause before
a resume overwrites the slot with the then-current depth (zero), and
resume then yields that most recently saved value. -/
theorem C7_pause_resume (s : Log) :
    ((step s Op.pauseIndentation).st.indentation = some 0)
    ∧ ((step s Op.pauseIndentation).st.indentWas = s.indentation)
    ∧ ((step (step s Op.pauseIndentation).st Op.resumeIndentation).st.indentation
        = s.indentation)
    ∧ ((step (step s Op.pauseIndentation).st Op.resumeIndentation).st.indentWas = none)
    ∧ ((step (step s Op.pauseIndentation).st Op.pauseIndentation).st.indentWas = some 0)
    ∧ ((step (step (step s Op.pauseIndentation).st Op.pauseIndentation).st
         Op.resumeIndentation).st.indentation = some 0) :=
  ⟨rfl, rfl, rfl, rfl, rfl, rfl⟩

/-- Flattening a map whose function always yields the empty list is
empty. -/
theorem flattenMapNil (lines : List String) (f : String → List Out)
    (hf : ∀ l, f l = []) : (lines.map f).flatten = [] := by
  induction lines with
  | nil => rfl
  | cons a as ih => simp [hf, ih]

/-- Claim C3: `setLogLevel` to `silent` sets the mute flag, and while
the mute flag is set no public operation writes anything to the output
sink — every level method emits nothing and `clear` and `clearLine`
write no control sequences. -/
theorem C3_muted_suppresses_all :
    (∀ s : Log, (step s (Op.setLogLevel (some "silent"))).st.mute = true)
    ∧ (∀ (s : Log) (op : Op), s.mute = true → (step s op).out = []) := by
  constructor
  · intro s
    rfl
  · intro s op h
    cases op with
    | level lv args => simp [step, emitVia, h]
    | clear => simp [step, h]
    | clearLine => simp [step, h]
    | count label ty =>
        cases ty with
        | some t => simp [step, emitVia, h]
        | none => simp [step]
    | clearCount label => simp [step]
    | indent => simp [step]
    | outdent => simp [step]
    | pauseIndentation => simp [step]
    | resumeIndentation => simp [step]
    | resetIndentation => simp [step]
    | mute => simp [step]
    | unmute => simp [step]
    | track label => simp [step]
    | untrack label => simp [step]
    | report label ty =>
        simp only [step]
        split
        · simp [emitVia, h]
        · split <;> simp [emitVia, h]
    | json lines ty =>
        simp only [step]
        exact flattenMapNil lines _ (fun l => by simp [emitVia, h])
    | setLogLevel l => simp [step]

/-- Closed instance of claim C3 at a muted default logger and a `clear`
call. -/
theorem C3_muted_suppresses_all_witness :
    mutedDefault.mute = true ∧ (step mutedDefault Op.clear).out = [] :=
  ⟨rfl, C3_muted_suppresses_all.2 mutedDefault Op.clear rfl⟩

/-- Claim C10: `setLogLevel` never clears the mute flag — on a muted
logger any requested level leaves the instance muted and its level
methods still emit nothing. -/
theorem C10_setLogLevel_keeps_mute (s : Log) (l : Option String) (lv : Level)
    (args : List String) (h : s.mute = true) :
    (step s (Op.setLogLevel l)).st.mute = true
    ∧ (step (step s (Op.setLogLevel l)).st (Op.level lv args)).out = [] := by
  have hm : (setLogLevelStep s l).mute = true := by
    simp only [setLogLevelStep]
    split
    · rfl
    · exact h
  exact ⟨hm, by simp [step, emitVia, hm]⟩

/-- Closed instance of claim C10 at a muted default logger and a `warn`
request. -/
theorem C10_setLogLevel_keeps_mute_witness :
    mutedDefault.mute = true
    ∧ ((step mutedDefault (Op.setLogLevel (some "warn"))).st.mute = true
       ∧ (step (step mutedDefault (Op.setLogLevel (some "warn"))).st
           (Op.level Level.info ["x"])).out = []) :=
  ⟨rfl, C10_setLogLevel_keeps_mute mutedDefault (some "warn") Level.info ["x"] rfl⟩

/-- Claim C8 as amended: on a logger that is not already muted,
`mute()` followed by `unmute()` restores the entire state exactly, so
every subsequent operation behaves as on the pre-mute instance. -/
theorem C8_mute_unmute_amended (s : Log) (h : s.mute = false) :
    (step (step s Op.mute).st Op.unmute).st = s := by
  cases s with
  | mk cfg ind iw m cnt trk fl =>
    have h2 : m = false := h
    subst h2
    rfl

/-- Closed instance of amended claim C8 at the default logger. -/
theorem C8_mute_unmute_amended_witness :
    defaultLog.mute = false
    ∧ (step (step defaultLog Op.mute).st Op.unmute).st = defaultLog :=
  ⟨rfl, C8_mute_unmute_amended defaultLog rfl⟩

/-- Claim C2 counterexample: with prefixes suppressed (`prefixStyle`
set to `none`) and colors left enabled, the emitted line is the
colorized joined line, not the plain join that the claim describes. -/
theorem C2_join_only_counterexample :
    claimedAssemblyC2 noPrefixStyleLog Level.info ["Hi"] = "Hi"
    ∧ (step noPrefixStyleLog (Op.level Level.info ["Hi"])).out
        = [Out.line (colorStyles Level.info "Hi")]
    ∧ colorStyles Level.info "Hi" ≠ "Hi" := by
  refine ⟨by decide, by decide, by decide⟩

/-- The render pipeline of the code coincides with the spec pipeline
(steps 2 to 7) on every state whose configuration satisfies the
constructor invariant that the suppressed-prefix flag implies an empty
prefix table. -/
theorem renderLine_eq_specAssembledLine (s : Log) (lv : Level) (args : List String)
    (hWF : s.cfg.noPrefixFlag = true → ∀ l, s.cfg.prefixes l = "") :
    renderLine s lv args = specAssembledLine s lv args := by
  by_cases hn : s.cfg.noPrefixFlag = true
  · have hp := hWF hn lv
    by_cases hc : s.cfg.noColors = true <;>
      simp [renderLine, specAssembledLine, claimedAssemblyC2, hn, hp, hc]
  · have hn2 : s.cfg.noPrefixFlag = false := by
      revert hn
      cases s.cfg.noPrefixFlag <;> simp
    simp [renderLine, specAssembledLine, claimedAssemblyC2, hn2]

/-- Claim C2 as amended: the constructor guarantees that the
suppressed-prefix flag comes with an empty prefix table; on every such
state, an enabled unmuted level method writes exactly one line, namely
the spec assembly of steps 2 to 6 followed by step 7 (the whole joined
line is colorized when prefixes are suppressed and colors enabled); and
under the default configuration `info` of `Hi` writes one line made of
the colorized info prefix, a single space, and the message. -/
theorem C2_render_pipeline_amended :
    (∀ (isWin : Bool) (c : InputCfg) (lv : Level),
       (mkLog isWin c).cfg.noPrefixFlag = true → (mkLog isWin c).cfg.prefixes lv = "")
    ∧ (∀ (s : Log) (lv : Level) (args : List String),
        (s.cfg.noPrefixFlag = true → ∀ l, s.cfg.prefixes l = "") →
        s.flags lv = true → s.mute = false →
        (step s (Op.level lv args)).out = [Out.line (specAssembledLine s lv args)])
    ∧ (step defaultLog (Op.level Level.info ["Hi"])).out
        = [Out.line (colorStyles Level.info (textPrefixes Level.info) ++ " " ++ "Hi")] := by
  refine ⟨?_, ?_, by decide⟩
  · intro isWin c lv h
    have hcfg : (mkLog isWin c).cfg
        = { prefixes := (resolvedPrefixTable isWin c).1
            noPrefixFlag := (resolvedPrefixTable isWin c).2
            colors := (resolvedColorTable c).1
            noColors := (resolvedColorTable c).2
            process := c.process
            color := c.color } := by
      simp only [mkLog]
      rw [setLogLevelStep_cfg]
    rw [hcfg] at h ⊢
    revert h
    cases hopt : c.prefixesOpt with
    | some l =>
        simp only [resolvedPrefixTable, hopt]
        intro h
        cases l with
        | nil => rfl
        | cons a as => simp at h
    | none =>
        simp only [resolvedPrefixTable, hopt]
        split <;> intro h
        · exact absurd h (by simp)
        · exact absurd h (by simp)
        · exact absurd h (by simp)
        · exact absurd h (by simp)
        · rfl
  · intro s lv args hWF hf hm
    simp [step, emitVia, hf, hm, renderLine_eq_specAssembledLine s lv args hWF]

/-- Closed instance of amended claim C2 at the default logger. -/
theorem C2_render_pipeline_amended_witness :
    ((defaultLog.cfg.noPrefixFlag = true → ∀ l, defaultLog.cfg.prefixes l = "")
     ∧ defaultLog.flags Level.info = true ∧ defaultLog.mute = false)
    ∧ (step defaultLog (Op.level Level.info ["Hi"])).out
        = [Out.line (specAssembledLine defaultLog Level.info ["Hi"])] :=
  ⟨⟨fun h => absurd h (by decide), rfl, rfl⟩,
   C2_render_pipeline_amended.2.1 defaultLog Level.info ["Hi"]
     (fun h => absurd h (by decide)) rfl rfl⟩

/-- Claim C5 as amended: `count` increments exactly the counter of its
bucket — the label itself, or the underscore-keyed anonymous bucket for
an absent or empty label — leaving every other counter unchanged; three
successive counts of `x` emit `x: 1`, `x: 2`, `x: 3`; and an anonymous
count leaves every named counter other than the underscore label
untouched (the anonymous bucket coincides with the underscore label). -/
theorem C5_count_amended :
    (∀ (s : Log) (l : String) (ty : Option Level),
       (step s (Op.count l ty)).st.counters (if l = "" then "_" else l)
         = s.counters (if l = "" then "_" else l) + 1)
    ∧ (∀ (s : Log) (l k : String) (ty : Option Level),
        k ≠ (if l = "" then "_" else l) →
        (step s (Op.count l ty)).st.counters k = s.counters k)
    ∧ ((step defaultLog (Op.count "x" (some Level.log))).out = [Out.line "x: 1"]
       ∧ (step (step defaultLog (Op.count "x" (some Level.log))).st
           (Op.count "x" (some Level.log))).out = [Out.line "x: 2"]
       ∧ (step (step (step defaultLog (Op.count "x" (some Level.log))).st
           (Op.count "x" (some Level.log))).st (Op.count "x" (some Level.log))).out
           = [Out.line "x: 3"])
    ∧ (∀ (s : Log) (k : String) (ty : Option Level), k ≠ "_" →
       (step s (Op.count "" ty)).st.counters k = s.counters k) := by
  refine ⟨?_, ?_, ⟨by decide, by decide, by decide⟩, ?_⟩
  · intro s l ty
    simp [step]
  · intro s l k ty hk
    simp [step, hk]
  · intro s k ty hk
    simp [step, hk]

/-- Closed instance of amended claim C5: an anonymous count does not
change the counter of the named label `x`. -/
theorem C5_count_amended_witness :
    ("x" : String) ≠ "_"
    ∧ (step defaultLog (Op.count "" (some Level.log))).st.counters "x"
        = defaultLog.counters "x" :=
  ⟨by decide, C5_count_amended.2.2.2 defaultLog "x" (some Level.log) (by decide)⟩

/-- The depth-and-slot well-formedness of amended claim C6: the depth
is a defined non-negative integer and any saved slot value is
non-negative. -/
def IndentInv (s : Log) : Prop :=
  (∃ n : Int, 0 ≤ n ∧ s.indentation = some n)
  ∧ (∀ m : Int, s.indentWas = some m → 0 ≤ m)

/-- N-fold repetition of one public operation. -/
def iterOp (op : Op) : Nat → Log → Log
| 0, s => s
| Nat.succ n, s => iterOp op n (step s op).st

/-- N `indent` calls raise a defined depth by exactly N. -/
theorem iterOp_indent_indentation (N : Nat) :
    ∀ (s : Log) (n : Int), s.indentation = some n →
      (iterOp Op.indent N s).indentation = some (n + N) := by
  induction N with
  | zero =>
      intro s n h
      simpa [iterOp] using h
  | succ k ih =>
      intro s n h
      have h2 : (step s Op.indent).st.indentation = some (n + 1) := by
        show s.indentation.map (· + 1) = some (n + 1)
        rw [h]
        rfl
      have h3 := ih _ _ h2
      show (iterOp Op.indent k (step s Op.indent).st).indentation = some (n + (k + 1 : Nat))
      rw [h3]
      congr 1
      push_cast
      ring

/-- N `outdent` calls lower a defined depth of at least N by exactly
N. -/
theorem iterOp_outdent_indentation (N : Nat) :
    ∀ (s : Log) (n : Int), 0 ≤ n → s.indentation = some (n + N) →
      (iterOp Op.outdent N s).indentation = some n := by
  induction N with
  | zero =>
      intro s n _ h
      simpa [iterOp] using h
  | succ k ih =>
      intro s n hn h
      have h2 : (step s Op.outdent).st.indentation = some (n + k) := by
        simp only [step, h]
        split
        · simp only [Option.some.injEq]
          omega
        · exfalso
          omega
      exact ih _ _ hn h2

/-- Claim C6 as amended: the constructor establishes, and every public
operation preserves, the invariant that the depth is a defined
non-negative integer and any saved slot is non-negative — provided
`resumeIndentation` is only invoked while a saved slot is present (an
unmatched resume instead copies the absent slot and leaves the depth
undefined); `outdent` at depth 0 is a no-op; and N `indent` calls
followed by N `outdent` calls return the depth to its starting
value. -/
theorem C6_indentation_amended :
    (∀ (isWin : Bool) (c : InputCfg), IndentInv (mkLog isWin c))
    ∧ (∀ (s : Log) (op : Op), IndentInv s →
        (op = Op.resumeIndentation → s.indentWas ≠ none) → IndentInv (step s op).st)
    ∧ (∀ s : Log, s.indentation = some 0 → (step s Op.outdent).st = s)
    ∧ (∀ (s : Log) (n : Int) (N : Nat), s.indentation = some n → 0 ≤ n →
        (iterOp Op.outdent N (iterOp Op.indent N s)).indentation = some n) := by
  refine ⟨?_, ?_, ?_, ?_⟩
  · intro isWin c
    have hind : (mkLog isWin c).indentation = some 0 := by
      simp only [mkLog]
      rw [setLogLevelStep_indentation]
    have hiw : (mkLog isWin c).indentWas = none := by
      simp only [mkLog]
      rw [setLogLevelStep_indentWas]
    refine ⟨⟨0, le_refl 0, hind⟩, ?_⟩
    intro m hm
    rw [hiw] at hm
    cases hm
  · intro s op hInv hres
    obtain ⟨⟨n, hn0, hn⟩, hslot⟩ := hInv
    cases op with
    | level lv args => exact ⟨⟨n, hn0, hn⟩, hslot⟩
    | clear => exact ⟨⟨n, hn0, hn⟩, hslot⟩
    | clearLine => exact ⟨⟨n, hn0, hn⟩, hslot⟩
    | count label ty => exact ⟨⟨n, hn0, hn⟩, hslot⟩
    | clearCount label => exact ⟨⟨n, hn0, hn⟩, hslot⟩
    | indent =>
        refine ⟨⟨n + 1, by omega, ?_⟩, hslot⟩
        show s.indentation.map (· + 1) = some (n + 1)
        rw [hn]
        rfl
    | outdent =>
        refine ⟨?_, hslot⟩
        show ∃ m, 0 ≤ m ∧
          (match s.indentation with
           | some x => if 0 < x then some (x - 1) else some x
           | none => none) = some m
        rw [hn]
        by_cases hp : 0 < n
        · exact ⟨n - 1, by omega, by simp [hp]⟩
        · exact ⟨n, hn0, by simp [hp]⟩
    | pauseIndentation =>
        refine ⟨⟨0, le_refl 0, rfl⟩, ?_⟩
        intro m hm
        have hm2 : s.indentation = some m := hm
        rw [hn] at hm2
        have := Option.some.inj hm2
        omega
    | resumeIndentation =>
        have hne := hres rfl
        cases hw : s.indentWas with
        | none => exact absurd hw hne
        | some m =>
            refine ⟨⟨m, hslot m hw, ?_⟩, ?_⟩
            · show s.indentWas = some m
              exact hw
            · intro m2 hm2
              have hm3 : (none : Option Int) = some m2 := hm2
              cases hm3
    | resetIndentation =>
        refine ⟨⟨0, le_refl 0, rfl⟩, ?_⟩
        intro m hm
        have hm3 : (none : Option Int) = some m := hm
        cases hm3
    | mute => exact ⟨⟨n, hn0, hn⟩, hslot⟩
    | unmute => exact ⟨⟨n, hn0, hn⟩, hslot⟩
    | track label =>
        simp only [step]
        split <;> exact ⟨⟨n, hn0, hn⟩, hslot⟩
    | untrack label =>
        simp only [step]
        split <;> exact ⟨⟨n, hn0, hn⟩, hslot⟩
    | report label ty =>
        simp only [step]
        split <;> exact ⟨⟨n, hn0, hn⟩, hslot⟩
    | json lines ty => exact ⟨⟨n, hn0, hn⟩, hslot⟩
    | setLogLevel l =>
        have h1 : (setLogLevelStep s l).indentation = some n := by
          rw [setLogLevelStep_indentation]
          exact hn
        refine ⟨⟨n, hn0, h1⟩, ?_⟩
        intro m hm
        have hm2 : (setLogLevelStep s l).indentWas = some m := hm
        rw [setLogLevelStep_indentWas] at hm2
        exact hslot m hm2
  · intro s h
    cases s with
    | mk cfg ind iw m cnt trk fl =>
      have h2 : ind = some 0 := h
      subst h2
      rfl
  · intro s n N hs hn0
    exact iterOp_outdent_indentation N _ n hn0 (iterOp_indent_indentation N s n hs)

/-- Closed instance of amended claim C6: the default logger satisfies
the invariant, outdent at depth 0 is a no-op there, and two indents
followed by two outdents return its depth to 0. -/
theorem C6_indentation_amended_witness :
    (defaultLog.indentation = some 0 ∧ (step defaultLog Op.outdent).st = defaultLog)
    ∧ (iterOp Op.outdent 2 (iterOp Op.indent 2 defaultLog)).indentation = some 0 :=
  ⟨⟨rfl, C6_indentation_amended.2.2.1 defaultLog rfl⟩,
   C6_indentation_amended.2.2.2 defaultLog 0 2 rfl (le_refl 0)⟩

end Loog
